import Mathlib

/-!
Verification development for the workspace-selector component and its
stream-decoding utility.

The embedding covers two source files:

* `read-stream` (the stream utility): `readStream` acquires a reader,
  performs a single `read()`, and decodes the resulting chunk as UTF-8
  text; `readJsonFromStream` parses that text as JSON and returns
  `{ data, error }` in-band.

* `workplace-selector/index.tsx`: the three handlers
  `handleSwitchWorkspace`, `handleCreateWorkspace`,
  `handleDeleteWorkspace` are embedded as pure functions from component
  state and remote-call outcomes to the final state paired with the list
  of observable effects (remote calls, notifications, navigations), in
  the order the code performs them.

The ECMAScript builtins the source relies on (`JSON.parse`,
`JSON.stringify`, `TextDecoder` for UTF-8, `String.prototype.trim`) are
not repository code; they are modelled here by executable Lean
functions (`parse`, `serialize`, `utf8Decode`, `jsTrim`) over a JSON
value type whose numbers are integers.
-/

mutual

/-- JSON value trees, mutually with element lists and object member lists.
Numbers are modelled as integers (the component only ever inspects the
string-valued member "code", so fractional numbers play no role). -/
inductive Json where
  | null : Json
  | bool (b : Bool) : Json
  | num (n : Int) : Json
  | str (s : String) : Json
  | arr (elems : JsonList) : Json
  | obj (members : JsonMembers) : Json

/-- Lists of JSON values (array elements). -/
inductive JsonList where
  | nil : JsonList
  | cons (hd : Json) (tl : JsonList) : JsonList

/-- Lists of JSON object members, in textual order. -/
inductive JsonMembers where
  | nil : JsonMembers
  | cons (key : String) (val : Json) (tl : JsonMembers) : JsonMembers
end

deriving instance DecidableEq for Json

/-! ## Serializer (models `JSON.stringify`) -/

/-- The decimal digit character for `n < 10`. -/
def digitChar (n : Nat) : Char := Char.ofNat (48 + n)

/-- Decimal digits of `n`, most significant first, prepended to `acc`. -/
def serNatAux (n : Nat) (acc : List Char) : List Char :=
  if 10 ≤ n then serNatAux (n / 10) (digitChar (n % 10) :: acc)
  else digitChar n :: acc
  termination_by n
  decreasing_by omega

/-- Decimal representation of a natural number. -/
def serNat (n : Nat) : List Char := serNatAux n []

/-- Decimal representation of an integer, with a leading minus sign for
negative values, as `JSON.stringify` prints integral numbers. -/
def serInt : Int → List Char
  | .ofNat m => serNat m
  | .negSucc m => '-' :: serNat (m + 1)

/-- Hexadecimal digit character (lowercase) for `n < 16`. -/
def hexChar (n : Nat) : Char :=
  if n < 10 then Char.ofNat (48 + n) else Char.ofNat (87 + n)

/-- Escape of a single character inside a JSON string literal, as
`JSON.stringify` emits it: quote and backslash get two-character
escapes, the named control characters get their short escapes, the
remaining control characters get a `\u00XX` escape, and every other
character is emitted literally. -/
def escChar (c : Char) : List Char :=
  if c = '"' then ['\\', '"']
  else if c = '\\' then ['\\', '\\']
  else if c = '\x08' then ['\\', 'b']
  else if c = '\x0c' then ['\\', 'f']
  else if c = '\n' then ['\\', 'n']
  else if c = '\r' then ['\\', 'r']
  else if c = '\t' then ['\\', 't']
  else if c.toNat < 0x20 then
    ['\\', 'u', '0', '0', hexChar (c.toNat / 16), hexChar (c.toNat % 16)]
  else [c]

/-- Escape of a character sequence inside a JSON string literal. -/
def escList : List Char → List Char
  | [] => []
  | c :: cs => escChar c ++ escList cs

/-- A JSON string literal: opening quote, escaped content, closing quote. -/
def serString (s : String) : List Char :=
  '"' :: escList s.data ++ ['"']

mutual

/-- Serialization of a JSON value, as `JSON.stringify` prints it
(no whitespace, members in order). -/
def serJson : Json → List Char
  | .null => ("null").data
  | .bool b => (if b then ("true") else ("false")).data
  | .num n => serInt n
  | .str s => serString s
  | .arr vs => '[' :: serElems vs ++ [']']
  | .obj ms => '\x7b' :: serMembers ms ++ ['\x7d']

/-- Comma-separated serialization of array elements. -/
def serElems : JsonList → List Char
  | .nil => []
  | .cons v .nil => serJson v
  | .cons v (.cons w vs) => serJson v ++ ',' :: serElems (.cons w vs)

/-- Comma-separated serialization of object members. -/
def serMembers : JsonMembers → List Char
  | .nil => []
  | .cons k v .nil => serString k ++ ':' :: serJson v
  | .cons k v (.cons k2 w ms) =>
      serString k ++ ':' :: serJson v ++ ',' :: serMembers (.cons k2 w ms)

end

/-- `JSON.stringify` on the modelled value type. -/
def serialize (v : Json) : String := ⟨serJson v⟩

/-! ## Parser (models `JSON.parse`; a parse exception becomes `none`) -/

/-- JSON insignificant whitespace. -/
def jsonWsChar (c : Char) : Bool :=
  c = ' ' || c = '\t' || c = '\n' || c = '\r'

/-- Skip insignificant whitespace. -/
def skipWs : List Char → List Char
  | [] => []
  | c :: cs => if jsonWsChar c then skipWs cs else c :: cs

/-- Require `lit` as a prefix of the input, returning the remainder. -/
def expectLit : List Char → List Char → Option (List Char)
  | [], s => some s
  | _ :: _, [] => none
  | l :: ls, c :: cs => if c = l then expectLit ls cs else none

/-- Decimal digit test. -/
def isDigitChar (c : Char) : Bool := 48 ≤ c.toNat && c.toNat ≤ 57

/-- Consume a maximal run of decimal digits, accumulating their value. -/
def parseDigitsAux (acc : Nat) : List Char → Nat × List Char
  | [] => (acc, [])
  | c :: cs =>
      if isDigitChar c then parseDigitsAux (acc * 10 + (c.toNat - 48)) cs
      else (acc, c :: cs)

/-- Parse a JSON number restricted to the integral grammar: an optional
minus sign followed by a digit run. -/
def parseNumber : List Char → Option (Int × List Char)
  | [] => none
  | c :: cs =>
      if c = '-' then
        match cs with
        | [] => none
        | d :: ds =>
            if isDigitChar d then
              let p := parseDigitsAux 0 (d :: ds)
              some (-(p.1 : Int), p.2)
            else none
      else if isDigitChar c then
        let p := parseDigitsAux 0 (c :: cs)
        some ((p.1 : Int), p.2)
      else none

/-- Value of a hexadecimal digit character. -/
def parseHexDigit (c : Char) : Option Nat :=
  if 48 ≤ c.toNat ∧ c.toNat ≤ 57 then some (c.toNat - 48)
  else if 97 ≤ c.toNat ∧ c.toNat ≤ 102 then some (c.toNat - 87)
  else if 65 ≤ c.toNat ∧ c.toNat ≤ 70 then some (c.toNat - 55)
  else none

/-- The character a short escape stands for. -/
def unescapeChar (c : Char) : Option Char :=
  if c = '"' then some '"'
  else if c = '\\' then some '\\'
  else if c = '/' then some '/'
  else if c = 'b' then some '\x08'
  else if c = 'f' then some '\x0c'
  else if c = 'n' then some '\n'
  else if c = 'r' then some '\r'
  else if c = 't' then some '\t'
  else none

/-- Parse the body of a JSON string literal after the opening quote, up
to and including the closing quote, returning the decoded content and
the remainder. -/
def parseStringBody : List Char → Option (List Char × List Char)
  | [] => none
  | c :: cs =>
      if c = '"' then some ([], cs)
      else if c = '\\' then
        match cs with
        | [] => none
        | e :: cs2 =>
            if e = 'u' then
              match cs2 with
              | a :: b :: c3 :: d :: cs3 =>
                  match parseHexDigit a, parseHexDigit b,
                        parseHexDigit c3, parseHexDigit d with
                  | some ha, some hb, some hc, some hd =>
                      (parseStringBody cs3).map fun p =>
                        (Char.ofNat (ha * 4096 + hb * 256 + hc * 16 + hd) :: p.1, p.2)
                  | _, _, _, _ => none
              | _ => none
            else
              match unescapeChar e with
              | some ch => (parseStringBody cs2).map fun p => (ch :: p.1, p.2)
              | none => none
      else if c.toNat < 0x20 then none
      else (parseStringBody cs).map fun p => (c :: p.1, p.2)

/-- Parsing mode: a single value, the elements of a non-empty array, or
the members of a non-empty object. -/
inductive PMode where
  | value : PMode
  | elems : PMode
  | members : PMode

/-- Result of a parsing step, tagged by what was parsed. -/
inductive PResult where
  | val (v : Json) : PResult
  | list (vs : JsonList) : PResult
  | mems (ms : JsonMembers) : PResult

/-- Fuel-indexed recursive-descent JSON grammar. In `value` mode it
recognises `null`, `true`, `false`, strings, arrays, objects and
integral numbers; `elems` and `members` modes recognise the comma
lists inside non-empty arrays and objects. -/
def parseAny : Nat → PMode → List Char → Option (PResult × List Char)
  | 0, _, _ => none
  | g + 1, .value, s =>
      match skipWs s with
      | [] => none
      | c :: r =>
          if c = 'n' then
            (expectLit ['u', 'l', 'l'] r).map fun r2 => (.val .null, r2)
          else if c = 't' then
            (expectLit ['r', 'u', 'e'] r).map fun r2 => (.val (.bool true), r2)
          else if c = 'f' then
            (expectLit ['a', 'l', 's', 'e'] r).map fun r2 => (.val (.bool false), r2)
          else if c = '"' then
            (parseStringBody r).map fun p => (.val (.str ⟨p.1⟩), p.2)
          else if c = '[' then
            match skipWs r with
            | [] => none
            | c2 :: r2 =>
                if c2 = ']' then some (.val (.arr .nil), r2)
                else
                  match parseAny g .elems (c2 :: r2) with
                  | some (.list vs, r3) => some (.val (.arr vs), r3)
                  | _ => none
          else if c = '\x7b' then
            match skipWs r with
            | [] => none
            | c2 :: r2 =>
                if c2 = '\x7d' then some (.val (.obj .nil), r2)
                else
                  match parseAny g .members (c2 :: r2) with
                  | some (.mems ms, r3) => some (.val (.obj ms), r3)
                  | _ => none
          else
            (parseNumber (c :: r)).map fun p => (.val (.num p.1), p.2)
  | g + 1, .elems, s =>
      match parseAny g .value s with
      | some (.val v, r) =>
          (match skipWs r with
           | [] => none
           | c :: r2 =>
               if c = ',' then
                 match parseAny g .elems r2 with
                 | some (.list vs, r3) => some (.list (.cons v vs), r3)
                 | _ => none
               else if c = ']' then some (.list (.cons v .nil), r2)
               else none)
      | _ => none
  | g + 1, .members, s =>
      match skipWs s with
      | [] => none
      | c :: r =>
          if c = '"' then
            match parseStringBody r with
            | some (k, r1) =>
                (match skipWs r1 with
                 | [] => none
                 | c2 :: r2 =>
                     if c2 = ':' then
                       match parseAny g .value r2 with
                       | some (.val v, r3) =>
                           (match skipWs r3 with
                            | [] => none
                            | c3 :: r4 =>
                                if c3 = ',' then
                                  match parseAny g .members r4 with
                                  | some (.mems ms, r5) =>
                                      some (.mems (.cons ⟨k⟩ v ms), r5)
                                  | _ => none
                                else if c3 = '\x7d' then
                                  some (.mems (.cons ⟨k⟩ v .nil), r4)
                                else none)
                       | _ => none
                     else none)
            | none => none
          else none

/-- Parse a single JSON value with the given fuel. -/
def parseValueTop (f : Nat) (s : List Char) : Option (Json × List Char) :=
  match parseAny f .value s with
  | some (.val v, r) => some (v, r)
  | _ => none

/-- `JSON.parse` on the modelled value type: parse one value and require
only whitespace to remain; `none` models the thrown `SyntaxError`. -/
def parse (s : String) : Option Json :=
  match parseValueTop (s.length + 1) s.data with
  | some (v, r) => if skipWs r = [] then some v else none
  | none => none

/-! ## UTF-8 (models the byte stream and `TextDecoder`) -/

/-- UTF-8 encoding of one character, as a list of byte values. -/
def utf8EncodeChar (c : Char) : List Nat :=
  let n := c.toNat
  if n < 0x80 then [n]
  else if n < 0x800 then [0xC0 + n / 64, 0x80 + n % 64]
  else if n < 0x10000 then
    [0xE0 + n / 4096, 0x80 + n / 64 % 64, 0x80 + n % 64]
  else
    [0xF0 + n / 0x40000, 0x80 + n / 4096 % 64, 0x80 + n / 64 % 64, 0x80 + n % 64]

/-- UTF-8 encoding of a character list, as a list of byte values. -/
def utf8EncodeList : List Char → List Nat
  | [] => []
  | c :: cs => utf8EncodeChar c ++ utf8EncodeList cs

/-- UTF-8 encoding of a string, as a list of byte values. -/
def utf8Encode (s : String) : List Nat :=
  utf8EncodeList s.data

/-- Continuation byte test. -/
def isContByte (b : Nat) : Bool := 0x80 ≤ b && b < 0xC0

/-- The replacement character emitted for invalid input. -/
def replChar : Char := Char.ofNat 0xFFFD

/-- One decoding step of `TextDecoder` (UTF-8, default non-fatal mode):
consume the lead byte `b` and its continuation bytes from `bs`, and
yield the decoded character (a replacement character for malformed
input) and the unconsumed remainder. Resynchronisation after a
malformed multi-byte window is simplified to consuming the window;
every theorem below only exercises well-formed encodings, where the
decoders agree. -/
def utf8Step (b : Nat) (bs : List Nat) : Char × List Nat :=
  if b < 0x80 then (Char.ofNat b, bs)
  else if b < 0xC0 then (replChar, bs)
  else if b < 0xE0 then
    match bs with
    | b1 :: bs1 =>
        (if isContByte b1 then Char.ofNat ((b - 0xC0) * 64 + (b1 - 0x80))
         else replChar, bs1)
    | [] => (replChar, [])
  else if b < 0xF0 then
    match bs with
    | b1 :: b2 :: bs2 =>
        (if isContByte b1 && isContByte b2 then
           Char.ofNat ((b - 0xE0) * 4096 + (b1 - 0x80) * 64 + (b2 - 0x80))
         else replChar, bs2)
    | _ => (replChar, [])
  else
    match bs with
    | b1 :: b2 :: b3 :: bs3 =>
        (if isContByte b1 && isContByte b2 && isContByte b3 then
           Char.ofNat ((b - 0xF0) * 0x40000 + (b1 - 0x80) * 4096
             + (b2 - 0x80) * 64 + (b3 - 0x80))
         else replChar, bs3)
    | _ => (replChar, [])

/-- UTF-8 decoding loop: one character per step. Each step consumes at
least one byte, so fuel equal to the byte count always suffices. -/
def utf8DecodeAux : Nat → List Nat → List Char
  | 0, _ => []
  | _ + 1, [] => []
  | g + 1, b :: bs =>
      (utf8Step b bs).1 :: utf8DecodeAux g (utf8Step b bs).2

/-- `new TextDecoder().decode` on a byte chunk. -/
def utf8Decode (bytes : List Nat) : String :=
  ⟨utf8DecodeAux bytes.length bytes⟩

/-! ## The stream utility (`read-stream` source file) -/

/-- A readable byte stream, as the sequence of chunks its producer
wrote. A closed empty stream has no chunks; `read()` on it yields
`done` with an undefined value, which `TextDecoder` decodes as the
empty string. -/
structure ByteStream where
  chunks : List (List Nat)

/-- `readStream`: acquire the reader, perform a single `read()`, and
UTF-8-decode the one chunk it returns (the head chunk; later chunks
are never read). -/
def readStream (stream : ByteStream) : String :=
  utf8Decode (stream.chunks.headD [])

/-- The `data` field of a decoded body: a parsed JSON value on success,
the raw text on parse failure. -/
inductive JsData where
  | json (v : Json) : JsData
  | text (s : String) : JsData

/-- The `{ data, error }` record returned by `readJsonFromStream`;
`error = none` models the literal `null`. -/
structure DecodedBody where
  data : JsData
  error : Option Unit

/-- `readJsonFromStream`: read the stream text, try `JSON.parse`; on
success return `{ data: parsed, error: null }`, on a parse exception
return `{ data: bodyText, error }` with the caught error. -/
def readJsonFromStream (stream : ByteStream) : DecodedBody :=
  let bodyText := readStream stream
  match parse bodyText with
  | some v => { data := .json v, error := none }
  | none => { data := .text bodyText, error := some () }

/-! ## The workspace-selector component -/

/-- One entry of the workspace list from context. -/
structure Workspace where
  id : String
  name : String
  current : Bool
  role : String
  plan : String

/-- The `{ id, name }` record held while a deletion awaits confirmation. -/
structure WorkspaceRef where
  id : String
  name : String

/-- The component state cells set via `useState`. -/
structure ComponentState where
  isCreating : Bool
  newWorkspaceName : String
  loading : Bool
  isDeleting : Bool
  workspaceToDelete : Option WorkspaceRef

deriving instance DecidableEq for ByteStream, JsData, DecodedBody, Workspace, WorkspaceRef, ComponentState

/-- Notification kinds accepted by `notify`. -/
inductive NotifKind where
  | success : NotifKind
  | error : NotifKind
deriving DecidableEq

/-- A remote call, with its url and request body. -/
inductive RemoteOp where
  | switchOp (url : String) (tenant_id : String) : RemoteOp
  | createOp (url : String) (name : String) : RemoteOp
  | deleteOp (url : String) (workspace_id : String) : RemoteOp
deriving DecidableEq

/-- Observable effects of a handler, in program order. Notification
messages are identified by their translation keys. -/
inductive Effect where
  | remoteCall (op : RemoteOp) : Effect
  | notification (kind : NotifKind) (message : String) : Effect
  | navigation (url : String) : Effect
deriving DecidableEq

/-- Ambient browser values: `location.origin` and the configured
`basePath`. -/
structure Env where
  origin : String
  basePath : String

/-- Outcome of an awaited `switchWorkspace` call. -/
inductive SwitchOutcome where
  | success : SwitchOutcome
  | failure : SwitchOutcome

/-- Outcome of the awaited `createWorkspace` call: success with the new
workspace id; rejection with an error whose `body` is a readable
stream; or rejection with an error carrying no usable stream, in which
case `readJsonFromStream` itself throws. -/
inductive CreateOutcome where
  | success (id : String) : CreateOutcome
  | failureBody (stream : ByteStream) : CreateOutcome
  | failureNoStream : CreateOutcome

/-- Outcome of the awaited `deleteWorkspace` call. -/
inductive DeleteOutcome where
  | success : DeleteOutcome
  | failure : DeleteOutcome

/-- `String.prototype.trim`: strip leading and trailing whitespace. -/
def jsWsChar (c : Char) : Bool :=
  c = ' ' || c = '\t' || c = '\n' || c = '\r' || c = '\x0b' || c = '\x0c'

/-- JS string trim over the character list. -/
def jsTrim (s : String) : String :=
  ⟨((s.data.dropWhile jsWsChar).reverse.dropWhile jsWsChar).reverse⟩

/-- Last-wins lookup of an object member, as property access on the
object built by `JSON.parse` behaves (later duplicate keys override
earlier ones). -/
def lookupMember : JsonMembers → String → Option Json
  | .nil, _ => none
  | .cons k v tl, key =>
      match lookupMember tl key with
      | some r => some r
      | none => if k = key then some v else none

/-- The `code` property of `data || {}`: only objects have one; every
non-object (including the falsy values replaced by `{}`) yields
undefined. -/
def codeOf : Json → Option Json
  | .obj ms => lookupMember ms "code"
  | _ => none

/-- The test `code === "exceed_max_workspaces"` on the decoded data. -/
def isExceedMax (data : Json) : Bool :=
  match codeOf data with
  | some (.str s) => s = "exceed_max_workspaces"
  | _ => false

/-- `handleSwitchWorkspace`: no-op when the first current workspace
already has the requested id; otherwise one switch call, then on
success a success notification and navigation to origin plus base
path, on rejection a generic save-failed error notification. The
component state is never modified. -/
def handleSwitchWorkspace (env : Env) (workspaces : List Workspace)
    (st : ComponentState) (outcome : SwitchOutcome) (tenant_id : String) :
    ComponentState × List Effect :=
  let currentWorkspace := workspaces.find? (fun v => v.current)
  if currentWorkspace.map (fun w => w.id) = some tenant_id then (st, [])
  else
    match outcome with
    | .success =>
        (st, [.remoteCall (.switchOp ("/workspaces/switch") tenant_id),
              .notification .success ("common.actionMsg.modifiedSuccessfully"),
              .navigation (env.origin ++ env.basePath)])
    | .failure =>
        (st, [.remoteCall (.switchOp ("/workspaces/switch") tenant_id),
              .notification .error ("common.provider.saveFailed")])

/-- The validation notification message for an empty name: the source
concatenates two translated fragments. -/
def nameRequiredMsg : String :=
  "common.userProfile.workspace" ++ "common.actionMsg.nameRequired"

/-- The effects of the inner catch block of `handleCreateWorkspace`:
decode the rejected call's body stream; only a successfully decoded
value whose code property is "exceed_max_workspaces" notifies, every
other decode outcome is silent. -/
def innerCatchEffects (stream : ByteStream) : List Effect :=
  let d := readJsonFromStream stream
  match d.error, d.data with
  | none, .json v =>
      if isExceedMax v then
        [Effect.notification .error ("common.actionMsg.createFailedExceed")]
      else []
  | _, _ => []

/-- `handleCreateWorkspace`: an empty trimmed draft name aborts with one
validation notification and no other effect. Otherwise one create call
is issued with the trimmed name. If it rejects with a stream body, the
body is decoded in the inner catch: only a successfully decoded object
whose code is "exceed_max_workspaces" produces a notification, then
the handler returns through `finally`. If decoding itself throws (no
usable stream), control reaches the outer catch and the generic
create-failed notification fires. On create success a success
notification is emitted, a switch to the new id is issued, and then
either navigation to the bare origin (switch resolved) or the outer
catch generic create-failed notification (switch rejected). The
`finally` block always clears `loading`, closes the creation UI and
resets the draft name. -/
def handleCreateWorkspace (env : Env) (st : ComponentState)
    (createOutcome : CreateOutcome) (switchAfter : SwitchOutcome) :
    ComponentState × List Effect :=
  if jsTrim st.newWorkspaceName = "" then
    (st, [.notification .error nameRequiredMsg])
  else
    let name := jsTrim st.newWorkspaceName
    let finalSt := { st with loading := false, isCreating := false,
                             newWorkspaceName := "" }
    let callEff := Effect.remoteCall (.createOp ("/workspaces/create") name)
    match createOutcome with
    | .failureBody stream =>
        (finalSt, callEff :: innerCatchEffects stream)
    | .failureNoStream =>
        (finalSt, [callEff,
                   .notification .error ("common.actionMsg.createFailed")])
    | .success newId =>
        match switchAfter with
        | .success =>
            (finalSt, [callEff,
                       .notification .success ("common.actionMsg.createdSuccessfully"),
                       .remoteCall (.switchOp ("/workspaces/switch") newId),
                       .navigation env.origin])
        | .failure =>
            (finalSt, [callEff,
                       .notification .success ("common.actionMsg.createdSuccessfully"),
                       .remoteCall (.switchOp ("/workspaces/switch") newId),
                       .notification .error ("common.actionMsg.createFailed")])

/-- `handleDeleteWorkspace`: no-op when no deletion is pending;
otherwise one delete call, then on success a success notification and
navigation to the bare origin, on rejection a generic delete-failed
notification; the `finally` block clears `loading`, closes the
confirmation and clears the pending deletion. -/
def handleDeleteWorkspace (env : Env) (st : ComponentState)
    (outcome : DeleteOutcome) : ComponentState × List Effect :=
  match st.workspaceToDelete with
  | none => (st, [])
  | some w =>
      let finalSt := { st with loading := false, isDeleting := false,
                               workspaceToDelete := none }
      match outcome with
      | .success =>
          (finalSt, [.remoteCall (.deleteOp ("/workspaces/delete") w.id),
                     .notification .success ("common.actionMsg.deletedSuccessfully"),
                     .navigation env.origin])
      | .failure =>
          (finalSt, [.remoteCall (.deleteOp ("/workspaces/delete") w.id),
                     .notification .error ("common.actionMsg.deleteFailed")])

/-- `showDeleteConfirm`: record the pending deletion and open the
confirmation; purely local. -/
def showDeleteConfirm (st : ComponentState) (w : WorkspaceRef) : ComponentState :=
  { st with workspaceToDelete := some w, isDeleting := true }

/-! ## Effect-trace observers -/

/-- Is the effect a remote call at all? -/
def isRemoteCall : Effect → Bool
  | .remoteCall _ => true
  | _ => false

/-- Is the effect a create remote call? -/
def isCreateCall : Effect → Bool
  | .remoteCall (.createOp _ _) => true
  | _ => false

/-- Is the effect a notification? -/
def isNotif : Effect → Bool
  | .notification _ _ => true
  | _ => false

/-- Is the effect a navigation? -/
def isNav : Effect → Bool
  | .navigation _ => true
  | _ => false

/-- The notifications of a trace, in order. -/
def notifsOf (tr : List Effect) : List Effect := tr.filter isNotif

/-- The navigations of a trace, in order. -/
def navsOf (tr : List Effect) : List Effect := tr.filter isNav

/-! ## Auxiliary definitions for the round-trip development -/

/-- Number of decimal digits of `n`. -/
def numDigits (n : Nat) : Nat :=
  if n < 10 then 1 else numDigits (n / 10) + 1
  termination_by n
  decreasing_by omega

/-- The input does not begin with a decimal digit, so a maximal-munch
number parse cannot run into it. -/
def noDigitStart : List Char → Bool
  | [] => true
  | c :: _ => !(isDigitChar c)

mutual

/-- Fuel sufficient for `parseAny` to parse a serialized value. -/
def fuelV : Json → Nat
  | .arr vs => fuelL vs + 1
  | .obj ms => fuelM ms + 1
  | _ => 1

/-- Fuel sufficient for `parseAny` to parse serialized array elements. -/
def fuelL : JsonList → Nat
  | .nil => 1
  | .cons v vs => max (fuelV v) (fuelL vs) + 1

/-- Fuel sufficient for `parseAny` to parse serialized object members. -/
def fuelM : JsonMembers → Nat
  | .nil => 1
  | .cons _ v ms => max (fuelV v) (fuelM ms) + 1

end

/-- The serialized tail of an element list after its first element:
empty for a singleton, a comma and the remaining elements otherwise. -/
def serElemsTail : JsonList → List Char
  | .nil => []
  | .cons a b => ',' :: serElems (.cons a b)

/-- The serialized tail of a member list after its first member. -/
def serMembersTail : JsonMembers → List Char
  | .nil => []
  | .cons a b c => ',' :: serMembers (.cons a b c)

/-- A decoded error body carrying the known exceeded-limit code. -/
def vExceed : Json := .obj (.cons ("code") (.str ("exceed_max_workspaces")) .nil)

/-- A stream whose single chunk encodes the exceeded-limit body. -/
def streamExceed : ByteStream :=
  ⟨[utf8Encode ("\x7b\"code\":\"exceed_max_workspaces\"\x7d")]⟩

/-- Concrete environment used by the witnesses. -/
def envW : Env := ⟨"https://cloud.example", "/apps"⟩

/-- A current workspace for the witnesses. -/
def wsCur : Workspace := ⟨"ws-a", "Alpha", true, "owner", "professional"⟩

/-- A non-current workspace for the witnesses. -/
def wsOther : Workspace := ⟨"ws-b", "Beta", false, "member", "sandbox"⟩

/-- An idle component state for the witnesses. -/
def stIdle : ComponentState := ⟨false, "", false, false, none⟩

/-- A creating state whose draft name trims to a non-empty name. -/
def stDraft : ComponentState := ⟨true, "  New Space ", true, false, none⟩

/-- A creating state whose draft name is whitespace only. -/
def stBlank : ComponentState := ⟨true, "   ", false, false, none⟩

/-- A state with a pending deletion and a non-empty draft name. -/
def stBusy : ComponentState := ⟨true, " New ", true, true, some ⟨"ws-b", "Beta"⟩⟩

/-! ## Inner-catch effect shape -/

/-- The inner catch of the create handler emits either nothing or
exactly the one exceeded-limit notification. -/
theorem innerCatchEffects_eq_nil_or_exceed (stream : ByteStream) :
    innerCatchEffects stream = [] ∨
    innerCatchEffects stream
      = [Effect.notification .error ("common.actionMsg.createFailedExceed")] := by
  unfold innerCatchEffects
  rcases hd : readJsonFromStream stream with ⟨data, err⟩
  rcases err with _ | u
  · rcases data with v | s
    · by_cases hex : isExceedMax v
      · right; simp [hex]
      · left; simp [hex]
    · left; simp
  · left; simp

/-! ## Claim theorems: the workspace-operation flow -/

/-- Claim C3: for every workspace list in which some workspace is
current (with the current flag identifying a unique id, per the
data-model invariant), invoking the switch handler with that current
workspace's id is an idempotent no-op: no remote call, no
notification, no navigation, state unchanged. -/
theorem claim_C3_switch_to_current_is_noop
    (env : Env) (ws : List Workspace) (st : ComponentState)
    (o : SwitchOutcome) (w : Workspace)
    (huniq : ∀ a ∈ ws, ∀ b ∈ ws, a.current = true → b.current = true → a.id = b.id)
    (hmem : w ∈ ws) (hcur : w.current = true) :
    handleSwitchWorkspace env ws st o w.id = (st, []) := by
  have hsome : (ws.find? (fun v => v.current)).isSome := by
    rw [List.find?_isSome]
    exact ⟨w, hmem, hcur⟩
  obtain ⟨u, hu⟩ := Option.isSome_iff_exists.mp hsome
  have hid : u.id = w.id :=
    huniq u (List.mem_of_find?_eq_some hu) w hmem (List.find?_some hu) hcur
  simp [handleSwitchWorkspace, hu, hid]

/-- Witness for claim C3 at a concrete two-workspace list. -/
theorem claim_C3_witness :
    handleSwitchWorkspace envW [wsCur, wsOther] stIdle .success (Workspace.id wsCur)
      = (stIdle, []) :=
  claim_C3_switch_to_current_is_noop envW [wsCur, wsOther] stIdle .success wsCur
    (by decide) (by decide) (by decide)

/-- Claim C5: an empty trimmed draft name aborts the create handler
with exactly the one validation notification and zero remote calls; a
non-empty trimmed name issues exactly one create remote call, carrying
the trimmed name as its body, whatever the outcome. -/
theorem claim_C5_create_precondition_and_single_call
    (env : Env) (st : ComponentState) (co : CreateOutcome) (sw : SwitchOutcome) :
    (jsTrim st.newWorkspaceName = "" →
      (handleCreateWorkspace env st co sw).2
          = [.notification .error nameRequiredMsg] ∧
      (handleCreateWorkspace env st co sw).2.countP isRemoteCall = 0) ∧
    (jsTrim st.newWorkspaceName ≠ "" →
      (handleCreateWorkspace env st co sw).2.filter isCreateCall
        = [.remoteCall (.createOp ("/workspaces/create") (jsTrim st.newWorkspaceName))]) := by
  constructor
  · intro h
    constructor
    · simp [handleCreateWorkspace, h]
    · simp [handleCreateWorkspace, h, isRemoteCall]
  · intro h
    rcases co with id | stream | _
    · rcases sw with _ | _ <;>
        simp [handleCreateWorkspace, h, isCreateCall, List.filter]
    · rcases innerCatchEffects_eq_nil_or_exceed stream with h1 | h1 <;>
        simp [handleCreateWorkspace, h, h1, isCreateCall, List.filter]
    · simp [handleCreateWorkspace, h, isCreateCall, List.filter]

/-- Witness for claim C5: the blank draft aborts with the validation
notification, and the non-blank draft issues the one create call. -/
theorem claim_C5_witness :
    ((handleCreateWorkspace envW stBlank .failureNoStream .success).2
        = [.notification .error nameRequiredMsg] ∧
      (handleCreateWorkspace envW stBlank .failureNoStream .success).2.countP isRemoteCall
        = 0) ∧
    (handleCreateWorkspace envW stDraft .failureNoStream .success).2.filter isCreateCall
      = [.remoteCall (.createOp ("/workspaces/create") (jsTrim (String.mk
          [' ', ' ', 'N', 'e', 'w', ' ', 'S', 'p', 'a', 'c', 'e', ' '])))] :=
  ⟨(claim_C5_create_precondition_and_single_call envW stBlank .failureNoStream .success).1
      (by decide),
   (claim_C5_create_precondition_and_single_call envW stDraft .failureNoStream .success).2
      (by decide)⟩

/-- Claim C6: for a non-empty trimmed draft name, every outcome of the
create handler ends with loading cleared, the creation UI closed and
the draft name reset. -/
theorem claim_C6_create_finally_resets_state
    (env : Env) (st : ComponentState) (co : CreateOutcome) (sw : SwitchOutcome)
    (h : jsTrim st.newWorkspaceName ≠ "") :
    (handleCreateWorkspace env st co sw).1.loading = false ∧
    (handleCreateWorkspace env st co sw).1.isCreating = false ∧
    (handleCreateWorkspace env st co sw).1.newWorkspaceName = "" := by
  rcases co with id | stream | _ <;> rcases sw with _ | _ <;>
    simp [handleCreateWorkspace, h]

/-- Witness for claim C6 at a concrete draft state and outcome. -/
theorem claim_C6_witness :
    (handleCreateWorkspace envW stDraft .failureNoStream .success).1.loading = false ∧
    (handleCreateWorkspace envW stDraft .failureNoStream .success).1.isCreating = false ∧
    (handleCreateWorkspace envW stDraft .failureNoStream .success).1.newWorkspaceName
      = "" :=
  claim_C6_create_finally_resets_state envW stDraft .failureNoStream .success (by decide)

/-- Claim C7: a successful switch navigates to origin plus base path,
while a successful create and a successful delete confirmation both
navigate to the bare origin. -/
theorem claim_C7_navigation_asymmetry
    (env : Env) (ws : List Workspace) (st : ComponentState)
    (tid newId : String) (w : WorkspaceRef)
    (hsw : (ws.find? (fun v => v.current)).map (fun u => u.id) ≠ some tid)
    (hname : jsTrim st.newWorkspaceName ≠ "")
    (hdel : st.workspaceToDelete = some w) :
    navsOf (handleSwitchWorkspace env ws st .success tid).2
        = [.navigation (env.origin ++ env.basePath)] ∧
    navsOf (handleCreateWorkspace env st (.success newId) .success).2
        = [.navigation env.origin] ∧
    navsOf (handleDeleteWorkspace env st .success).2 = [.navigation env.origin] := by
  refine ⟨?_, ?_, ?_⟩
  · simp [handleSwitchWorkspace, hsw, navsOf, isNav, List.filter]
  · simp [handleCreateWorkspace, hname, navsOf, isNav, List.filter]
  · simp [handleDeleteWorkspace, hdel, navsOf, isNav, List.filter]

/-- Witness for claim C7 at concrete inputs. -/
theorem claim_C7_witness :
    navsOf (handleSwitchWorkspace envW [wsCur, wsOther] stBusy .success
        (Workspace.id wsOther)).2
      = [.navigation (Env.origin envW ++ Env.basePath envW)] ∧
    navsOf (handleCreateWorkspace envW stBusy (.success ("ws-new")) .success).2
      = [.navigation (Env.origin envW)] ∧
    navsOf (handleDeleteWorkspace envW stBusy .success).2
      = [.navigation (Env.origin envW)] :=
  claim_C7_navigation_asymmetry envW [wsCur, wsOther] stBusy
    (Workspace.id wsOther) ("ws-new") ⟨"ws-b", "Beta"⟩
    (by decide) (by decide) (by decide)

/-- Claim C8: the delete confirmation is a no-op without a pending
deletion; with one, success emits exactly the delete call, one success
notification and the navigation to the bare origin, and every
non-no-op outcome ends with loading cleared, the confirmation closed
and the pending deletion reset. -/
theorem claim_C8_delete_confirm
    (env : Env) (st : ComponentState) (o : DeleteOutcome) (w : WorkspaceRef) :
    (st.workspaceToDelete = none → handleDeleteWorkspace env st o = (st, [])) ∧
    (st.workspaceToDelete = some w →
      handleDeleteWorkspace env st .success
        = ({ st with loading := false, isDeleting := false, workspaceToDelete := none },
           [.remoteCall (.deleteOp ("/workspaces/delete") w.id),
            .notification .success ("common.actionMsg.deletedSuccessfully"),
            .navigation env.origin])) ∧
    (st.workspaceToDelete = some w →
      (handleDeleteWorkspace env st o).1.loading = false ∧
      (handleDeleteWorkspace env st o).1.isDeleting = false ∧
      (handleDeleteWorkspace env st o).1.workspaceToDelete = none) := by
  refine ⟨?_, ?_, ?_⟩
  · intro h; simp [handleDeleteWorkspace, h]
  · intro h; simp [handleDeleteWorkspace, h]
  · intro h; rcases o with _ | _ <;> simp [handleDeleteWorkspace, h]

/-- Witness for claim C8 at a concrete pending deletion. -/
theorem claim_C8_witness :
    handleDeleteWorkspace envW stBusy .success
      = ({ stBusy with loading := false, isDeleting := false, workspaceToDelete := none },
         [.remoteCall (.deleteOp ("/workspaces/delete") ("ws-b")),
          .notification .success ("common.actionMsg.deletedSuccessfully"),
          .navigation (Env.origin envW)]) :=
  (claim_C8_delete_confirm envW stBusy .success ⟨"ws-b", "Beta"⟩).2.1 (by decide)

/-- Claim C10: when the create call succeeds but the chained switch
call rejects, the same invocation notifies created-successfully and
then the generic create-failed error, in that order. -/
theorem claim_C10_create_success_switch_failure_both_notifications
    (env : Env) (st : ComponentState) (newId : String)
    (h : jsTrim st.newWorkspaceName ≠ "") :
    notifsOf (handleCreateWorkspace env st (.success newId) .failure).2
      = [.notification .success ("common.actionMsg.createdSuccessfully"),
         .notification .error ("common.actionMsg.createFailed")] := by
  simp [handleCreateWorkspace, h, notifsOf, isNotif, List.filter]

/-- Witness for claim C10 at a concrete draft state. -/
theorem claim_C10_witness :
    notifsOf (handleCreateWorkspace envW stDraft (.success ("ws-new")) .failure).2
      = [.notification .success ("common.actionMsg.createdSuccessfully"),
         .notification .error ("common.actionMsg.createFailed")] :=
  claim_C10_create_success_switch_failure_both_notifications envW stDraft ("ws-new")
    (by decide)

/-! ## Round trip: numbers -/

theorem digitChar_props (k : Nat) (h : k < 10) :
    isDigitChar (digitChar k) = true ∧ (digitChar k).toNat = 48 + k ∧
    jsonWsChar (digitChar k) = false ∧ digitChar k ≠ '-' ∧ digitChar k ≠ 'n' ∧
    digitChar k ≠ 't' ∧ digitChar k ≠ 'f' ∧ digitChar k ≠ '"' ∧
    digitChar k ≠ '[' ∧ digitChar k ≠ '\x7b' := by
  interval_cases k <;> decide

theorem serNatAux_append (n : Nat) (acc : List Char) :
    serNatAux n acc = serNatAux n [] ++ acc := by
  induction n using Nat.strong_induction_on generalizing acc with
  | _ n ih =>
    by_cases h : n < 10
    · conv_lhs => rw [serNatAux]
      conv_rhs => rw [serNatAux]
      simp [Nat.not_le.mpr h]
    · conv_lhs => rw [serNatAux]
      conv_rhs => rw [serNatAux]
      rw [if_pos (by omega), if_pos (by omega)]
      rw [ih (n / 10) (by omega) (digitChar (n % 10) :: acc),
          ih (n / 10) (by omega) (digitChar (n % 10) :: [])]
      simp

theorem serNatAux_shape (n : Nat) :
    ∃ k t, k < 10 ∧ serNatAux n [] = digitChar k :: t := by
  induction n using Nat.strong_induction_on with
  | _ n ih =>
    by_cases h : n < 10
    · exact ⟨n, [], h, by rw [serNatAux, if_neg (by omega)]⟩
    · obtain ⟨k, t, hk, ht⟩ := ih (n / 10) (by omega)
      refine ⟨k, t ++ [digitChar (n % 10)], hk, ?_⟩
      conv_lhs => rw [serNatAux]
      rw [if_pos (by omega), serNatAux_append, ht]
      simp

theorem parseDigitsAux_serNat (n : Nat) (a : Nat) (rest : List Char) :
    parseDigitsAux a (serNatAux n [] ++ rest)
      = parseDigitsAux (a * 10 ^ numDigits n + n) rest := by
  induction n using Nat.strong_induction_on generalizing a rest with
  | _ n ih =>
    by_cases h : n < 10
    · conv_lhs => rw [serNatAux]
      conv_rhs => rw [numDigits]
      rw [if_neg (by omega : ¬10 ≤ n), if_pos h]
      obtain ⟨hd, htn, -⟩ := digitChar_props n h
      simp [parseDigitsAux, hd, htn]
    · conv_lhs => rw [serNatAux]
      conv_rhs => rw [numDigits]
      rw [if_pos (by omega : 10 ≤ n), if_neg h, serNatAux_append,
        List.append_assoc]
      rw [ih (n / 10) (by omega)]
      obtain ⟨hd, htn, -⟩ := digitChar_props (n % 10) (by omega)
      simp only [List.cons_append, List.nil_append, parseDigitsAux, hd, if_true, htn]
      have harith : (a * 10 ^ numDigits (n / 10) + n / 10) * 10 + (48 + n % 10 - 48)
          = a * 10 ^ (numDigits (n / 10) + 1) + n := by
        have hmod : n / 10 * 10 + n % 10 = n := by omega
        rw [pow_succ]
        calc (a * 10 ^ numDigits (n / 10) + n / 10) * 10 + (48 + n % 10 - 48)
            = a * 10 ^ numDigits (n / 10) * 10 + (n / 10 * 10 + n % 10) := by
              ring_nf
              omega
          _ = a * (10 ^ numDigits (n / 10) * 10) + n := by rw [hmod, Nat.mul_assoc]
      rw [harith]
      simp

theorem parseDigitsAux_noDigit (a : Nat) (rest : List Char)
    (h : noDigitStart rest = true) : parseDigitsAux a rest = (a, rest) := by
  cases rest with
  | nil => rfl
  | cons c cs =>
    have hc : isDigitChar c = false := by
      simp [noDigitStart] at h
      exact h
    simp [parseDigitsAux, hc]

theorem parseNumber_serInt (n : Int) (rest : List Char)
    (h : noDigitStart rest = true) :
    parseNumber (serInt n ++ rest) = some (n, rest) := by
  cases n with
  | ofNat m =>
    obtain ⟨k, t, hk, ht⟩ := serNatAux_shape m
    obtain ⟨hdig, -, -, hminus, -⟩ := digitChar_props k hk
    show parseNumber (serNat m ++ rest) = _
    rw [serNat, ht]
    simp only [List.cons_append, parseNumber, hminus, if_neg hminus, hdig, if_pos rfl]
    have hre : digitChar k :: (t ++ rest) = serNatAux m [] ++ rest := by rw [ht]; rfl
    rw [hre, parseDigitsAux_serNat, parseDigitsAux_noDigit _ _ h]
    simp
  | negSucc m =>
    obtain ⟨k, t, hk, ht⟩ := serNatAux_shape (m + 1)
    obtain ⟨hdig, -, -, -⟩ := digitChar_props k hk
    show parseNumber ('-' :: serNat (m + 1) ++ rest) = _
    rw [serNat, ht]
    simp only [List.cons_append, parseNumber, if_pos rfl, hdig]
    have hre : digitChar k :: (t ++ rest) = serNatAux (m + 1) [] ++ rest := by
      rw [ht]; rfl
    rw [hre, parseDigitsAux_serNat, parseDigitsAux_noDigit _ _ h]
    simp [Int.negSucc_eq]

/-! ## Round trip: strings -/

theorem hexChar_parse (k : Nat) (h : k < 16) : parseHexDigit (hexChar k) = some k := by
  interval_cases k <;> decide

theorem parseStringBody_escList (l : List Char) (rest : List Char) :
    parseStringBody (escList l ++ '"' :: rest) = some (l, rest) := by
  induction l with
  | nil =>
    show parseStringBody ('"' :: rest) = _
    rw [parseStringBody.eq_def]
    simp
  | cons c cs ih =>
    have hassoc : escList (c :: cs) ++ '"' :: rest
        = escChar c ++ (escList cs ++ '"' :: rest) := by
      simp [escList]
    rw [hassoc]
    by_cases h1 : c = '"'
    · subst h1
      show parseStringBody ('\\' :: '"' :: (escList cs ++ '"' :: rest)) = _
      rw [parseStringBody.eq_def]
      simp [unescapeChar, ih]
    by_cases h2 : c = '\\'
    · subst h2
      show parseStringBody ('\\' :: '\\' :: (escList cs ++ '"' :: rest)) = _
      rw [parseStringBody.eq_def]
      simp [unescapeChar, ih]
    by_cases h3 : c = '\x08'
    · subst h3
      show parseStringBody ('\\' :: 'b' :: (escList cs ++ '"' :: rest)) = _
      rw [parseStringBody.eq_def]
      simp [unescapeChar, ih]
    by_cases h4 : c = '\x0c'
    · subst h4
      show parseStringBody ('\\' :: 'f' :: (escList cs ++ '"' :: rest)) = _
      rw [parseStringBody.eq_def]
      simp [unescapeChar, ih]
    by_cases h5 : c = '\n'
    · subst h5
      show parseStringBody ('\\' :: 'n' :: (escList cs ++ '"' :: rest)) = _
      rw [parseStringBody.eq_def]
      simp [unescapeChar, ih]
    by_cases h6 : c = '\r'
    · subst h6
      show parseStringBody ('\\' :: 'r' :: (escList cs ++ '"' :: rest)) = _
      rw [parseStringBody.eq_def]
      simp [unescapeChar, ih]
    by_cases h7 : c = '\t'
    · subst h7
      show parseStringBody ('\\' :: 't' :: (escList cs ++ '"' :: rest)) = _
      rw [parseStringBody.eq_def]
      simp [unescapeChar, ih]
    by_cases h8 : c.toNat < 0x20
    · have hesc : escChar c
          = ['\\', 'u', '0', '0', hexChar (c.toNat / 16), hexChar (c.toNat % 16)] := by
        simp [escChar, h1, h2, h3, h4, h5, h6, h7, h8]
      rw [hesc]
      have hhi := hexChar_parse (c.toNat / 16) (by omega)
      have hlo := hexChar_parse (c.toNat % 16) (by omega)
      rw [List.cons_append, parseStringBody.eq_def]
      have h0 : parseHexDigit '0' = some 0 := by decide
      have harith : c.toNat / 16 * 16 + c.toNat % 16 = c.toNat := by omega
      simp [h0, hhi, hlo, harith, Char.ofNat_toNat, ih]
    · have hesc : escChar c = [c] := by
        simp [escChar, h1, h2, h3, h4, h5, h6, h7, h8]
      rw [hesc]
      rw [List.cons_append, parseStringBody.eq_def]
      simp [h1, h2, h8, ih]

/-! ## Round trip: values -/

theorem serElems_decomp (w : Json) (ws : JsonList) :
    serElems (.cons w ws) = serJson w ++ serElemsTail ws := by
  cases ws <;> simp [serElems, serElemsTail]

theorem serMembers_decomp (k : String) (v : Json) (ms : JsonMembers) :
    serMembers (.cons k v ms)
      = serString k ++ ':' :: (serJson v ++ serMembersTail ms) := by
  cases ms <;> simp [serMembers, serMembersTail]

theorem digitChar_props2 (k : Nat) (h : k < 10) :
    digitChar k ≠ ']' ∧ digitChar k ≠ '\x7d' := by
  interval_cases k <;> decide

theorem serInt_shape (n : Int) :
    ∃ c t, serInt n = c :: t ∧ jsonWsChar c = false ∧ c ≠ ']' ∧ c ≠ '\x7d' ∧
      c ≠ 't' ∧ c ≠ 'n' ∧ c ≠ '"' ∧ c ≠ 'f' ∧ c ≠ '[' ∧ c ≠ '\x7b' := by
  cases n with
  | ofNat m =>
    obtain ⟨k, t, hk, ht⟩ := serNatAux_shape m
    obtain ⟨-, -, hws, -, hn, htr, hf, hq, hbr, hob⟩ := digitChar_props k hk
    obtain ⟨hcl, hcb⟩ := digitChar_props2 k hk
    exact ⟨digitChar k, t, by rw [serInt, serNat, ht], hws, hcl, hcb, htr, hn, hq, hf,
      hbr, hob⟩
  | negSucc m =>
    have hprops : jsonWsChar '-' = false ∧ ('-' ≠ ']' ∧ '-' ≠ '\x7d') ∧
        ('-' ≠ 't' ∧ '-' ≠ 'n') ∧ ('-' ≠ '"' ∧ '-' ≠ 'f') ∧
        ('-' ≠ '[' ∧ '-' ≠ '\x7b') := by decide
    obtain ⟨p1, ⟨p2, p3⟩, ⟨p4, p5⟩, ⟨p6, p7⟩, p8, p9⟩ := hprops
    exact ⟨'-', serNat (m + 1), by rw [serInt], p1, p2, p3, p4, p5, p6, p7, p8, p9⟩

theorem serJson_shape (v : Json) :
    ∃ c t, serJson v = c :: t ∧ jsonWsChar c = false ∧ c ≠ ']' ∧ c ≠ '\x7d' := by
  cases v with
  | null =>
    exact ⟨'n', ['u', 'l', 'l'], by simp [serJson], by decide, by decide, by decide⟩
  | bool b =>
    cases b with
    | true =>
      exact ⟨'t', ['r', 'u', 'e'], by simp [serJson], by decide, by decide, by decide⟩
    | false =>
      exact ⟨'f', ['a', 'l', 's', 'e'], by simp [serJson], by decide, by decide,
        by decide⟩
  | num n =>
    obtain ⟨c, t, hser, hws, hcl, hcb, -, -, -, -, -, -⟩ := serInt_shape n
    exact ⟨c, t, by simp [serJson, hser], hws, hcl, hcb⟩
  | str s =>
    exact ⟨'"', escList s.data ++ ['"'], by simp [serJson, serString], by decide,
      by decide, by decide⟩
  | arr vs =>
    exact ⟨'[', serElems vs ++ [']'], by simp [serJson], by decide, by decide,
      by decide⟩
  | obj ms =>
    exact ⟨'\x7b', serMembers ms ++ ['\x7d'], by simp [serJson], by decide, by decide,
      by decide⟩

theorem fuelV_pos (v : Json) : 1 ≤ fuelV v := by
  cases v <;> simp [fuelV]

theorem fuelL_pos (vs : JsonList) : 1 ≤ fuelL vs := by
  cases vs <;> simp [fuelL]

theorem fuelM_pos (ms : JsonMembers) : 1 ≤ fuelM ms := by
  cases ms <;> simp [fuelM]

theorem skipWs_nonWs (c : Char) (t : List Char) (h : jsonWsChar c = false) :
    skipWs (c :: t) = c :: t := by
  simp [skipWs, h]

mutual

theorem rtV (v : Json) (f : Nat) (hf : fuelV v ≤ f) (rest : List Char)
    (hrest : noDigitStart rest = true) :
    parseAny f .value (serJson v ++ rest) = some (.val v, rest) := by
  obtain ⟨g, rfl⟩ : ∃ g, f = g + 1 := ⟨f - 1, by have := fuelV_pos v; omega⟩
  cases v with
  | null =>
    have hs : serJson .null = ['n', 'u', 'l', 'l'] := by simp [serJson]
    rw [hs]
    simp [parseAny, skipWs, jsonWsChar, expectLit]
  | bool b =>
    cases b with
    | true =>
      have hs : serJson (.bool true) = ['t', 'r', 'u', 'e'] := by simp [serJson]
      rw [hs]
      simp [parseAny, skipWs, jsonWsChar, expectLit]
    | false =>
      have hs : serJson (.bool false) = ['f', 'a', 'l', 's', 'e'] := by
        simp [serJson]
      rw [hs]
      simp [parseAny, skipWs, jsonWsChar, expectLit]
  | num n =>
    obtain ⟨c, t, hser, hws, -, -, ht, hn, hq, hfa, hbr, hob⟩ := serInt_shape n
    have hs : serJson (.num n) = serInt n := by simp [serJson]
    have hasm : c :: (t ++ rest) = serInt n ++ rest := by rw [hser]; rfl
    have hpn : parseNumber (c :: (t ++ rest)) = some (n, rest) := by
      rw [hasm]
      exact parseNumber_serInt n rest hrest
    rw [hs, hser, List.cons_append, parseAny.eq_def]
    simp [skipWs_nonWs c _ hws, hn, ht, hfa, hq, hbr, hob, hpn]
  | str s =>
    have hs : serJson (.str s) = '"' :: (escList s.data ++ ['"']) := by
      simp [serJson, serString]
    rw [hs, List.cons_append, parseAny.eq_def]
    simp [skipWs, jsonWsChar, parseStringBody_escList]
  | arr vs =>
    cases vs with
    | nil =>
      have hs : serJson (.arr .nil) = ['[', ']'] := by simp [serJson, serElems]
      rw [hs]
      simp [parseAny, skipWs, jsonWsChar]
    | cons w ws =>
      have hfl : fuelL (.cons w ws) ≤ g := by
        have h1 := hf
        simp [fuelV] at h1
        omega
      have hrtl := rtL (.cons w ws) (by simp) g hfl rest
      obtain ⟨c0, t0, hs0, hws0, hcl0, hcb0⟩ := serJson_shape w
      have hs : serJson (.arr (.cons w ws))
          = '[' :: (serElems (.cons w ws) ++ [']']) := by simp [serJson]
      have hinput : serElems (.cons w ws) ++ [']'] ++ rest
          = c0 :: (t0 ++ serElemsTail ws ++ ']' :: rest) := by
        rw [serElems_decomp, hs0]
        simp
      have hback : parseAny g .elems (c0 :: (t0 ++ serElemsTail ws ++ ']' :: rest))
          = some (.list (.cons w ws), rest) := by
        have hb : c0 :: (t0 ++ serElemsTail ws ++ ']' :: rest)
            = serElems (.cons w ws) ++ ']' :: rest := by
          rw [serElems_decomp, hs0]
          simp
        rw [hb]
        exact hrtl
      have hws0b := hws0
      simp [jsonWsChar] at hws0b
      rw [hs, List.cons_append, parseAny.eq_def, hinput]
      generalize hX : t0 ++ serElemsTail ws ++ ']' :: rest = X at hback ⊢
      simp [skipWs, jsonWsChar, hws0b, hcl0, hback]
  | obj ms =>
    cases ms with
    | nil =>
      have hs : serJson (.obj .nil) = ['\x7b', '\x7d'] := by
        simp [serJson, serMembers]
      rw [hs]
      simp [parseAny, skipWs, jsonWsChar]
    | cons k v ms2 =>
      have hfm : fuelM (.cons k v ms2) ≤ g := by
        have h1 := hf
        simp [fuelV] at h1
        omega
      have hrtm := rtM (.cons k v ms2) (by simp) g hfm rest
      have hs : serJson (.obj (.cons k v ms2))
          = '\x7b' :: (serMembers (.cons k v ms2) ++ ['\x7d']) := by
        simp [serJson]
      have hinput : serMembers (.cons k v ms2) ++ ['\x7d'] ++ rest
          = '"' :: (escList k.data ++ '"' :: (':' :: (serJson v
              ++ (serMembersTail ms2 ++ '\x7d' :: rest)))) := by
        rw [serMembers_decomp, serString]
        simp
      have hback : parseAny g .members ('"' :: (escList k.data ++ '"' :: (':'
              :: (serJson v ++ (serMembersTail ms2 ++ '\x7d' :: rest)))))
          = some (.mems (.cons k v ms2), rest) := by
        have hb : ('"' : Char) :: (escList k.data ++ '"' :: (':' :: (serJson v
                ++ (serMembersTail ms2 ++ '\x7d' :: rest))))
            = serMembers (.cons k v ms2) ++ '\x7d' :: rest := by
          rw [serMembers_decomp, serString]
          simp
        rw [hb]
        exact hrtm
      rw [hs, List.cons_append, parseAny.eq_def, hinput]
      generalize hX : escList k.data ++ '"' :: (':' :: (serJson v
          ++ (serMembersTail ms2 ++ '\x7d' :: rest))) = X at hback ⊢
      simp [skipWs, jsonWsChar, hback]

theorem rtL (vs : JsonList) (hne : vs ≠ .nil) (f : Nat) (hf : fuelL vs ≤ f)
    (rest : List Char) :
    parseAny f .elems (serElems vs ++ ']' :: rest) = some (.list vs, rest) := by
  obtain ⟨g, rfl⟩ : ∃ g, f = g + 1 := ⟨f - 1, by have := fuelL_pos vs; omega⟩
  cases vs with
  | nil => exact absurd rfl hne
  | cons w ws =>
    have hfv : fuelV w ≤ g := by
      simp [fuelL] at hf
      omega
    cases ws with
    | nil =>
      have hrtv := rtV w g hfv (']' :: rest) (by rfl)
      have harg : serElems (.cons w .nil) ++ ']' :: rest
          = serJson w ++ (']' :: rest) := by
        simp [serElems]
      rw [harg, parseAny.eq_def]
      simp [hrtv, skipWs, jsonWsChar]
    | cons a b =>
      have hfl2 : fuelL (.cons a b) ≤ g := by
        simp [fuelL] at hf ⊢
        omega
      have hrtl2 := rtL (.cons a b) (by simp) g hfl2 rest
      have hrtv := rtV w g hfv (',' :: (serElems (.cons a b) ++ ']' :: rest))
        (by rfl)
      have harg : serElems (.cons w (.cons a b)) ++ ']' :: rest
          = serJson w ++ (',' :: (serElems (.cons a b) ++ ']' :: rest)) := by
        simp [serElems]
      rw [harg, parseAny.eq_def]
      simp [hrtv, hrtl2, skipWs, jsonWsChar]

theorem rtM (ms : JsonMembers) (hne : ms ≠ .nil) (f : Nat) (hf : fuelM ms ≤ f)
    (rest : List Char) :
    parseAny f .members (serMembers ms ++ '\x7d' :: rest)
      = some (.mems ms, rest) := by
  obtain ⟨g, rfl⟩ : ∃ g, f = g + 1 := ⟨f - 1, by have := fuelM_pos ms; omega⟩
  cases ms with
  | nil => exact absurd rfl hne
  | cons k v ms2 =>
    have hfv : fuelV v ≤ g := by
      simp [fuelM] at hf
      omega
    cases ms2 with
    | nil =>
      have hrtv := rtV v g hfv ('\x7d' :: rest) (by rfl)
      have harg : serMembers (.cons k v .nil) ++ '\x7d' :: rest
          = '"' :: (escList k.data ++ '"' :: (':' :: (serJson v
              ++ ('\x7d' :: rest)))) := by
        simp [serMembers, serString]
      rw [harg, parseAny.eq_def]
      simp [parseStringBody_escList, hrtv, skipWs, jsonWsChar]
    | cons k2 v2 ms3 =>
      have hfm2 : fuelM (.cons k2 v2 ms3) ≤ g := by
        simp [fuelM] at hf ⊢
        omega
      have hrtm2 := rtM (.cons k2 v2 ms3) (by simp) g hfm2 rest
      have hrtv := rtV v g hfv
        (',' :: (serMembers (.cons k2 v2 ms3) ++ '\x7d' :: rest)) (by rfl)
      have harg : serMembers (.cons k v (.cons k2 v2 ms3)) ++ '\x7d' :: rest
          = '"' :: (escList k.data ++ '"' :: (':' :: (serJson v
              ++ (',' :: (serMembers (.cons k2 v2 ms3) ++ '\x7d' :: rest))))) := by
        simp [serMembers, serString]
      rw [harg, parseAny.eq_def]
      simp [parseStringBody_escList, hrtv, hrtm2, skipWs, jsonWsChar]

end

/-! ## Fuel bounds and the top-level round trip -/

mutual

theorem fuelV_le (v : Json) : fuelV v ≤ (serJson v).length + 1 := by
  cases v with
  | null => simp [fuelV]
  | bool b => cases b <;> simp [fuelV]
  | num n => simp [fuelV]
  | str s => simp [fuelV]
  | arr vs =>
    have h := fuelL_le vs
    simp only [fuelV, serJson]
    simp only [List.length_cons, List.length_append, List.length_singleton]
    omega
  | obj ms =>
    have h := fuelM_le ms
    simp only [fuelV, serJson]
    simp only [List.length_cons, List.length_append, List.length_singleton]
    omega

theorem fuelL_le (vs : JsonList) : fuelL vs ≤ (serElems vs).length + 2 := by
  cases vs with
  | nil => simp [fuelL]
  | cons v ws =>
    have hv := fuelV_le v
    cases ws with
    | nil =>
      simp only [fuelL, serElems, fuelL.eq_1]
      omega
    | cons a b =>
      have hl := fuelL_le (.cons a b)
      simp only [fuelL, serElems, List.length_append, List.length_cons] at hl ⊢
      omega

theorem fuelM_le (ms : JsonMembers) : fuelM ms ≤ (serMembers ms).length + 2 := by
  cases ms with
  | nil => simp [fuelM]
  | cons k v ms2 =>
    have hv := fuelV_le v
    cases ms2 with
    | nil =>
      simp only [fuelM, serMembers, fuelM.eq_1]
      simp only [List.length_append, List.length_cons]
      omega
    | cons k2 v2 ms3 =>
      have hm := fuelM_le (.cons k2 v2 ms3)
      simp only [fuelM, serMembers, List.length_append, List.length_cons] at hm ⊢
      omega

end

theorem parse_serialize (v : Json) : parse (serialize v) = some v := by
  have hb : fuelV v ≤ (serJson v).length + 1 := fuelV_le v
  have h := rtV v ((serJson v).length + 1) hb [] rfl
  rw [List.append_nil] at h
  have hdata : (serialize v).data = serJson v := rfl
  have hlen : (serialize v).length = (serJson v).length := rfl
  rw [parse, hlen, hdata, parseValueTop, h]
  simp [skipWs]

/-! ## UTF-8 round trip -/

theorem charToNatBound (c : Char) : c.toNat < 0x110000 := by
  have h := c.valid
  simp [Char.toNat]
  rcases h with h | h <;> omega

theorem utf8EncodeChar_shape (c : Char) :
    ∃ b t, utf8EncodeChar c = b :: t ∧
      ∀ rest, utf8Step b (t ++ rest) = (c, rest) := by
  have hv : c.toNat < 0x110000 := charToNatBound c
  by_cases h1 : c.toNat < 0x80
  · refine ⟨c.toNat, [], by simp [utf8EncodeChar, h1], fun rest => ?_⟩
    simp [utf8Step, h1, Char.ofNat_toNat]
  by_cases h2 : c.toNat < 0x800
  · refine ⟨0xC0 + c.toNat / 64, [0x80 + c.toNat % 64],
      by simp [utf8EncodeChar, h1, h2], fun rest => ?_⟩
    have ha1 : ¬(0xC0 + c.toNat / 64 < 0x80) := by omega
    have ha2 : ¬(0xC0 + c.toNat / 64 < 0xC0) := by omega
    have ha3 : 0xC0 + c.toNat / 64 < 0xE0 := by omega
    have hcont : isContByte (0x80 + c.toNat % 64) = true := by
      simp [isContByte]
      omega
    have harith : c.toNat / 64 * 64 + c.toNat % 64 = c.toNat := by omega
    simp [utf8Step, ha1, ha2, ha3, hcont, harith, Char.ofNat_toNat]
  by_cases h3 : c.toNat < 0x10000
  · refine ⟨0xE0 + c.toNat / 4096, [0x80 + c.toNat / 64 % 64, 0x80 + c.toNat % 64],
      by simp [utf8EncodeChar, h1, h2, h3], fun rest => ?_⟩
    have ha1 : ¬(0xE0 + c.toNat / 4096 < 0x80) := by omega
    have ha2 : ¬(0xE0 + c.toNat / 4096 < 0xC0) := by omega
    have ha3 : ¬(0xE0 + c.toNat / 4096 < 0xE0) := by omega
    have ha4 : 0xE0 + c.toNat / 4096 < 0xF0 := by omega
    have hc1 : isContByte (0x80 + c.toNat / 64 % 64) = true := by
      simp [isContByte]
      omega
    have hc2 : isContByte (0x80 + c.toNat % 64) = true := by
      simp [isContByte]
      omega
    have harith : c.toNat / 4096 * 4096 + c.toNat / 64 % 64 * 64 + c.toNat % 64
        = c.toNat := by omega
    simp [utf8Step, ha1, ha2, ha3, ha4, hc1, hc2, harith, Char.ofNat_toNat]
  · refine ⟨0xF0 + c.toNat / 0x40000,
      [0x80 + c.toNat / 4096 % 64, 0x80 + c.toNat / 64 % 64, 0x80 + c.toNat % 64],
      by simp [utf8EncodeChar, h1, h2, h3], fun rest => ?_⟩
    have ha1 : ¬(0xF0 + c.toNat / 0x40000 < 0x80) := by omega
    have ha2 : ¬(0xF0 + c.toNat / 0x40000 < 0xC0) := by omega
    have ha3 : ¬(0xF0 + c.toNat / 0x40000 < 0xE0) := by omega
    have ha4 : ¬(0xF0 + c.toNat / 0x40000 < 0xF0) := by omega
    have hc1 : isContByte (0x80 + c.toNat / 4096 % 64) = true := by
      simp [isContByte]
      omega
    have hc2 : isContByte (0x80 + c.toNat / 64 % 64) = true := by
      simp [isContByte]
      omega
    have hc3 : isContByte (0x80 + c.toNat % 64) = true := by
      simp [isContByte]
      omega
    have harith : c.toNat / 0x40000 * 0x40000 + c.toNat / 4096 % 64 * 4096
        + c.toNat / 64 % 64 * 64 + c.toNat % 64 = c.toNat := by omega
    simp [utf8Step, ha1, ha2, ha3, ha4, hc1, hc2, hc3, harith, Char.ofNat_toNat]

theorem utf8DecodeAux_enc (l : List Char) (f : Nat) (hf : l.length ≤ f) :
    utf8DecodeAux f (utf8EncodeList l) = l := by
  induction l generalizing f with
  | nil =>
    cases f with
    | zero => rfl
    | succ g => rfl
  | cons c cs ih =>
    obtain ⟨g, rfl⟩ : ∃ g, f = g + 1 := ⟨f - 1, by simp at hf; omega⟩
    obtain ⟨b, t, henc, hstep⟩ := utf8EncodeChar_shape c
    have harg : utf8EncodeList (c :: cs) = b :: (t ++ utf8EncodeList cs) := by
      rw [utf8EncodeList, henc]
      rfl
    rw [harg, utf8DecodeAux, hstep (utf8EncodeList cs)]
    have hcs : cs.length ≤ g := by
      simp at hf
      omega
    simp [ih g hcs]

theorem utf8_round (s : String) : utf8Decode (utf8Encode s) = s := by
  have hlen : ∀ l : List Char, l.length ≤ (utf8EncodeList l).length := by
    intro l
    induction l with
    | nil => simp [utf8EncodeList]
    | cons c cs ih =>
      have h1 : 1 ≤ (utf8EncodeChar c).length := by
        by_cases h1 : c.toNat < 0x80
        · simp [utf8EncodeChar, h1]
        by_cases h2 : c.toNat < 0x800
        · simp [utf8EncodeChar, h1, h2]
        by_cases h3 : c.toNat < 0x10000
        · simp [utf8EncodeChar, h1, h2, h3]
        · simp [utf8EncodeChar, h1, h2, h3]
      simp only [utf8EncodeList, List.length_append, List.length_cons]
      omega
  rw [utf8Encode, utf8Decode, utf8DecodeAux_enc s.data _ (hlen s.data)]

/-! ## Decoder claims -/

/-- Claim C1: decoding a stream whose single chunk is the UTF-8
encoding of the JSON serialization of a structured value yields that
value with a null error. -/
theorem claim_C1_stream_decoder_roundtrip (v : Json) :
    readJsonFromStream ⟨[utf8Encode (serialize v)]⟩
      = { data := .json v, error := none } := by
  have hr : readStream ⟨[utf8Encode (serialize v)]⟩ = serialize v := by
    rw [readStream]
    simp [utf8_round]
  simp [readJsonFromStream, hr, parse_serialize]

/-- Claim C2: for text that is not valid JSON, the decoder returns the
raw text in `data` with a non-null error, in-band. -/
theorem claim_C2_nonjson_text_preserved (s : String) (h : parse s = none) :
    readJsonFromStream ⟨[utf8Encode s]⟩
      = { data := .text s, error := some () } := by
  have hr : readStream ⟨[utf8Encode s]⟩ = s := by
    rw [readStream]
    simp [utf8_round]
  simp [readJsonFromStream, hr, h]

/-- Witness for claim C2 on a concrete non-JSON text. -/
theorem claim_C2_witness :
    parse ("hello") = none ∧
    readJsonFromStream ⟨[utf8Encode ("hello")]⟩
      = { data := .text ("hello"), error := some () } :=
  ⟨rfl, claim_C2_nonjson_text_preserved ("hello") rfl⟩

/-- Claim C9: the stream utility reads exactly one chunk: decoding any
stream equals decoding its first chunk alone, and the text read is the
UTF-8 decoding of the first chunk, truncating later chunks. -/
theorem claim_C9_single_chunk_read (c : List Nat) (rest : List (List Nat)) :
    readJsonFromStream ⟨c :: rest⟩ = readJsonFromStream ⟨[c]⟩ ∧
    readStream ⟨c :: rest⟩ = utf8Decode c :=
  ⟨rfl, rfl⟩

/-- Claim C4: on a create failure with a decodable body, the exceeded
notification fires exactly when decoding succeeds with the known code;
every other decode outcome is silent; the generic create-failed
notification never comes from the decode branch; and the two catch
scopes never both notify. -/
theorem claim_C4_create_failure_decode_branches
    (env : Env) (st : ComponentState) (sw : SwitchOutcome)
    (h : jsTrim st.newWorkspaceName ≠ "") :
    (∀ stream v, readJsonFromStream stream = { data := .json v, error := none } →
      isExceedMax v = true →
      notifsOf (handleCreateWorkspace env st (.failureBody stream) sw).2
        = [.notification .error ("common.actionMsg.createFailedExceed")]) ∧
    (∀ stream v, readJsonFromStream stream = { data := .json v, error := none } →
      isExceedMax v = false →
      notifsOf (handleCreateWorkspace env st (.failureBody stream) sw).2 = []) ∧
    (∀ stream, (readJsonFromStream stream).error ≠ none →
      notifsOf (handleCreateWorkspace env st (.failureBody stream) sw).2 = []) ∧
    (∀ stream,
      Effect.notification .error ("common.actionMsg.createFailed")
        ∉ (handleCreateWorkspace env st (.failureBody stream) sw).2) ∧
    (∀ co,
      ¬(Effect.notification .error ("common.actionMsg.createFailedExceed")
            ∈ (handleCreateWorkspace env st co sw).2 ∧
        Effect.notification .error ("common.actionMsg.createFailed")
          ∈ (handleCreateWorkspace env st co sw).2)) := by
  refine ⟨?_, ?_, ?_, ?_, ?_⟩
  · intro stream v hjson hex
    simp [handleCreateWorkspace, h, innerCatchEffects, hjson, hex, notifsOf,
      isNotif, List.filter]
  · intro stream v hjson hex
    simp [handleCreateWorkspace, h, innerCatchEffects, hjson, hex, notifsOf,
      isNotif, List.filter]
  · intro stream herr
    rcases hd : readJsonFromStream stream with ⟨data, err⟩
    rw [hd] at herr
    simp only [ne_eq] at herr
    rcases err with _ | u
    · simp at herr
    · simp [handleCreateWorkspace, h, innerCatchEffects, hd, notifsOf, isNotif,
        List.filter]
  · intro stream
    rcases innerCatchEffects_eq_nil_or_exceed stream with h1 | h1 <;>
      simp [handleCreateWorkspace, h, h1]
  · intro co
    rcases co with id | stream | _
    · rcases sw with _ | _ <;> simp [handleCreateWorkspace, h]
    · rcases innerCatchEffects_eq_nil_or_exceed stream with h1 | h1 <;>
        simp [handleCreateWorkspace, h, h1]
    · simp [handleCreateWorkspace, h]

/-- Witness for claim C4 with a concrete decodable exceed body. -/
theorem claim_C4_witness :
    notifsOf (handleCreateWorkspace envW stDraft (.failureBody streamExceed)
        .success).2
      = [.notification .error ("common.actionMsg.createFailedExceed")] :=
  (claim_C4_create_failure_decode_branches envW stDraft .success (by decide)).1
    streamExceed vExceed (by rfl) (by rfl)
